import Mathlib

/-!
Verification of the document-to-point ingestion pipeline from the
practical-rag-scratchpad repository (notebook 02-setting-up-qdrant).

The pipeline is a shallow embedding of two Python functions:

* `get_text_embedding(text, openai_client, model)` — wraps one call to the
  embedding provider and re-raises any provider error;
* `add_data_to_collection(data, qdrant_client, collection_name)` — for each
  input dictionary draws a fresh uuid, reads the fields `summary`, `chunk`,
  `title`, `source`, `authors` with `dict.get` (yielding `None` when absent),
  embeds `summary` and `chunk`, assembles the named-vector dictionary and the
  payload, builds a `PointStruct`, and finally issues a single
  `upsert(collection_name, wait=True, points=points)` call, printing a success
  message exactly when the returned status is `UpdateStatus.COMPLETED`.

External effects are made explicit: the embedding provider is a function
parameter, uuid generation is an identifier supply indexed by a counter, and
the outcome records the trace of embedding calls, the upsert calls issued, the
lines printed, and the exception (if any) that propagated.
-/

/-- A Python value as it appears in the records and payloads of the notebook:
the `None` object, a string, or a list of strings (author names, categories). -/
inductive PyVal where
  | none
  | str (s : String)
  | strList (xs : List String)
deriving DecidableEq

/-- An input record: a Python dictionary, modelled as an association list in
insertion order. -/
abbrev Record := List (String × PyVal)

/-- Python `item.get(key)`: the value stored under `key`, or `None` when the
key is absent. -/
def dictGet (item : Record) (key : String) : PyVal :=
  match item.find? (fun kv => kv.1 == key) with
  | some kv => kv.2
  | Option.none => PyVal.none

/-- Whether a key is present in a record. -/
def dictHasKey (item : Record) (key : String) : Bool :=
  item.any (fun kv => kv.1 == key)

/-- An error raised by the embedding provider (the notebook catches
`OpenAIError` and re-raises it). -/
inductive EmbedError where
  | openAIError (msg : String)
deriving DecidableEq

/-- The status returned by the storage service for an upsert
(`UpdateStatus.COMPLETED` versus the non-final `acknowledged`). -/
inductive UpdateStatus where
  | acknowledged
  | completed
deriving DecidableEq

/-- A vector of floats returned by the embedding provider; the component type
is abstracted to `Int`, since the pipeline never computes on the components. -/
abbrev Embedding := List Int

/-- An embedding provider: maps an input value and a model name to a vector or
an error. The notebook passes the record fields straight to the provider, so
the input is a `PyVal` (it can be `None` when the field was absent). -/
abbrev EmbedFn := PyVal → String → Except EmbedError Embedding

/-- The qdrant `PointStruct`: identifier, the named-vector dictionary, and the
payload, both dictionaries in insertion order. -/
structure PointStruct where
  id : String
  vector : List (String × Embedding)
  payload : List (String × PyVal)
deriving DecidableEq

/-- One call to `qdrant_client.upsert`, with the arguments the notebook
passes: collection name, `wait`, and the list of points. -/
structure UpsertCall where
  collection_name : String
  wait : Bool
  points : List PointStruct
deriving DecidableEq

/-- The observable outcome of one `add_data_to_collection` run: the trace of
embedding-provider invocations (input and model, in call order), the upsert
calls issued, the lines printed, and the exception that propagated, if any. -/
structure IngestOutcome where
  embedTrace : List (PyVal × String)
  upsertCalls : List UpsertCall
  printed : List String
  raised : Option EmbedError
deriving DecidableEq

/-- The default model of `get_text_embedding`. -/
def defaultModel : String := "text-embedding-3-large"

/-- `get_text_embedding`: calls the provider and returns its vector, re-raising
any provider error (the try/except re-raise of the notebook). -/
def get_text_embedding (embedFn : EmbedFn) (text : PyVal) (model : String) :
    Except EmbedError Embedding :=
  match embedFn text model with
  | Except.ok embedding => Except.ok embedding
  | Except.error e => Except.error e

/-- The body of the `for item in data` loop of `add_data_to_collection`:
processes the records in order, drawing identifier `ids n` for the first
record, `ids (n+1)` for the next, and so on. Returns the trace of embedding
calls made, and either the list of built points (in input order) or the first
error raised, which aborts the loop. -/
def processRecords (embedFn : EmbedFn) (ids : Nat → String) :
    Nat → List Record → List (PyVal × String) × Except EmbedError (List PointStruct)
  | _, [] => ([], Except.ok [])
  | n, item :: rest =>
    let text_id := ids n
    let summary := dictGet item "summary"
    let chunk := dictGet item "chunk"
    let title := dictGet item "title"
    let source := dictGet item "source"
    let authors := dictGet item "authors"
    match get_text_embedding embedFn summary defaultModel with
    | Except.error e => ([(summary, defaultModel)], Except.error e)
    | Except.ok summary_vector =>
      match get_text_embedding embedFn chunk defaultModel with
      | Except.error e =>
        ([(summary, defaultModel), (chunk, defaultModel)], Except.error e)
      | Except.ok chunk_vector =>
        let vector_dict := [("summary", summary_vector), ("chunk", chunk_vector)]
        let payload := [("text_id", PyVal.str text_id), ("title", title),
                        ("source", source), ("authors", authors),
                        ("chunk", chunk), ("summary", summary)]
        let point : PointStruct := ⟨text_id, vector_dict, payload⟩
        let rest_out := processRecords embedFn ids (n + 1) rest
        ((summary, defaultModel) :: (chunk, defaultModel) :: rest_out.1,
          match rest_out.2 with
          | Except.ok pts => Except.ok (point :: pts)
          | Except.error e => Except.error e)

/-- `add_data_to_collection`: builds the points, then issues one upsert with
`wait := true` and prints the success message exactly when the returned status
is `UpdateStatus.completed`; an embedding error propagates out before any
upsert is issued. `statusOf` models the response of the storage service. -/
def add_data_to_collection (embedFn : EmbedFn) (statusOf : UpsertCall → UpdateStatus)
    (ids : Nat → String) (n : Nat) (data : List Record) (collection_name : String) :
    IngestOutcome :=
  let built := processRecords embedFn ids n data
  match built.2 with
  | Except.error e => ⟨built.1, [], [], some e⟩
  | Except.ok points =>
    let operation : UpsertCall := ⟨collection_name, true, points⟩
    let msg := if statusOf operation = UpdateStatus.completed then
        "Data inserted successfully!"
      else
        "Failed to insert data"
    ⟨built.1, [operation], [msg], Option.none⟩

/-- Modelled from the spec: the storage service holding a collection is
external (reached only through `qdrant_client.upsert` in the source). Section 3
(Point invariant) and section 4.4 (Writer) give its upsert semantics: a point
whose identifier already exists has its vectors and payload fully replaced,
otherwise the point is added. The collection content is the list of stored
points. -/
def upsertPoint (c : List PointStruct) (p : PointStruct) : List PointStruct :=
  if c.any (fun q => q.id == p.id) then
    c.map (fun q => if q.id == p.id then p else q)
  else
    c ++ [p]

/-- Modelled from the spec: a batch upsert stores the points of the batch one
after the other. -/
def upsertBatch (c : List PointStruct) (ps : List PointStruct) : List PointStruct :=
  List.foldl upsertPoint c ps

/-- The `points_count` a `get_collection` descriptor reports. -/
def points_count (c : List PointStruct) : Nat := c.length

/-- Whether the collection holds a point with the given identifier. -/
def hasId (c : List PointStruct) (i : String) : Bool :=
  c.any (fun q => q.id == i)

/-- The stored point with the given identifier, if any. -/
def getPoint (c : List PointStruct) (i : String) : Option PointStruct :=
  c.find? (fun q => q.id == i)

/-- Apply one upsert call of the pipeline to a collection. -/
def applyCall (c : List PointStruct) (call : UpsertCall) : List PointStruct :=
  upsertBatch c call.points

/-- Apply the upsert calls of a pipeline run to a collection, in order. -/
def applyCalls (c : List PointStruct) (calls : List UpsertCall) : List PointStruct :=
  List.foldl applyCall c calls

/-- Modelled from the spec: the declared dimensionality of an embedding model
(section 4.2: fixed and documented per model, 3072 for the large text model
used here; 1536 for the small sibling). -/
def modelDim (model : String) : Nat :=
  if model = "text-embedding-3-large" then 3072 else 1536

/-- A provider satisfies length-invariance when every vector it returns has
the declared dimensionality of the requested model. -/
def LenInvariant (embedFn : EmbedFn) : Prop :=
  ∀ t m v, embedFn t m = Except.ok v → v.length = modelDim m

/-- Modelled from the spec: the external embedding provider (sections 4.2 and
6), reached only through the OpenAI client in the source. For a non-empty
string it returns a dense vector of the declared dimensionality of the model;
an empty or non-string input is a failure mode. -/
def specProvider : EmbedFn :=
  fun text model =>
    match text with
    | PyVal.str s =>
      if s = "" then Except.error (EmbedError.openAIError "empty input")
      else Except.ok (List.replicate (modelDim model) 0)
    | _ => Except.error (EmbedError.openAIError "invalid input")

/-- The embedding calls a run over `data` makes when every call succeeds: for
each record in order, first its summary, then its chunk, each under the
default model. -/
def expectedTrace : List Record → List (PyVal × String)
  | [] => []
  | item :: rest =>
    (dictGet item "summary", defaultModel) :: (dictGet item "chunk", defaultModel)
      :: expectedTrace rest

/-- The identifiers a run assigns: `len` consecutive draws from the supply
starting at counter `n`. -/
def expectedIds (ids : Nat → String) (n : Nat) : Nat → List String
  | 0 => []
  | len + 1 => ids n :: expectedIds ids (n + 1) len

/-- The point the loop body builds from `item` under provider `embedFn`: its
vector dictionary holds exactly the summary and chunk embeddings under those
slot names, and its payload is the six-key dictionary of the notebook, with
`text_id` equal to the identifier of the point itself. -/
def builtFrom (embedFn : EmbedFn) (item : Record) (p : PointStruct) : Prop :=
  ∃ vs vc,
    embedFn (dictGet item "summary") defaultModel = Except.ok vs ∧
    embedFn (dictGet item "chunk") defaultModel = Except.ok vc ∧
    p.vector = [("summary", vs), ("chunk", vc)] ∧
    p.payload = [("text_id", PyVal.str p.id), ("title", dictGet item "title"),
                 ("source", dictGet item "source"), ("authors", dictGet item "authors"),
                 ("chunk", dictGet item "chunk"), ("summary", dictGet item "summary")]

/-- A concrete provider for witnesses and counterexamples: embeds any string
as the one-component vector of its length, and fails on `None` or a list,
as the real provider rejects a missing text. -/
def strEmbed : EmbedFn :=
  fun text _ =>
    match text with
    | PyVal.str s => Except.ok [Int.ofNat s.length]
    | _ => Except.error (EmbedError.openAIError "input must be a string")

/-- A provider that always fails, for fault-injection runs. -/
def failEmbed : EmbedFn :=
  fun _ _ => Except.error (EmbedError.openAIError "provider down")

/-- A storage service that always reports the completed status. -/
def allCompleted : UpsertCall → UpdateStatus := fun _ => UpdateStatus.completed

/-- A storage service that never reports the completed status (a soft
failure: the call returns without throwing, but the batch is not final). -/
def allAcknowledged : UpsertCall → UpdateStatus := fun _ => UpdateStatus.acknowledged

/-- A concrete identifier supply for witnesses and counterexamples. -/
def simpleIds : Nat → String := fun k => "id" ++ toString k

/-- A concrete record with every field the loop reads, plus further metadata
fields as in the sampled arxiv dataset of the notebook. -/
def recFull : Record :=
  [("doi", PyVal.str "2210.02406"),
   ("chunk", PyVal.str "Figure 1: standard approaches"),
   ("title", PyVal.str "Decomposed Prompting"),
   ("summary", PyVal.str "Few-shot prompting is powerful"),
   ("source", PyVal.str "arxiv pdf 2210.02406"),
   ("authors", PyVal.strList ["Tushar Khot", "Harsh Trivedi"]),
   ("categories", PyVal.strList ["cs.CL"]),
   ("published", PyVal.str "20221005")]

/-- A concrete record lacking the `title` key. -/
def recNoTitle : Record :=
  [("chunk", PyVal.str "some chunk text"),
   ("summary", PyVal.str "some summary text"),
   ("source", PyVal.str "somewhere"),
   ("authors", PyVal.strList ["A. Author"])]

/-- A concrete record lacking the `summary` key. -/
def recNoSummary : Record :=
  [("chunk", PyVal.str "some chunk text"),
   ("title", PyVal.str "a title"),
   ("source", PyVal.str "somewhere"),
   ("authors", PyVal.strList ["A. Author"])]

/-- The point the pipeline builds from `recFull` under `strEmbed` with
identifier `id0`. -/
def pointFull : PointStruct :=
  ⟨"id0", [("summary", [30]), ("chunk", [29])],
   [("text_id", PyVal.str "id0"), ("title", PyVal.str "Decomposed Prompting"),
    ("source", PyVal.str "arxiv pdf 2210.02406"),
    ("authors", PyVal.strList ["Tushar Khot", "Harsh Trivedi"]),
    ("chunk", PyVal.str "Figure 1: standard approaches"),
    ("summary", PyVal.str "Few-shot prompting is powerful")]⟩

/-- The same point as `pointFull` but drawn under identifier `id1`, as a
second ingestion run produces it. -/
def pointFull1 : PointStruct :=
  ⟨"id1", [("summary", [30]), ("chunk", [29])],
   [("text_id", PyVal.str "id1"), ("title", PyVal.str "Decomposed Prompting"),
    ("source", PyVal.str "arxiv pdf 2210.02406"),
    ("authors", PyVal.strList ["Tushar Khot", "Harsh Trivedi"]),
    ("chunk", PyVal.str "Figure 1: standard approaches"),
    ("summary", PyVal.str "Few-shot prompting is powerful")]⟩

/-- The point the pipeline builds from `recNoTitle` under `strEmbed`. -/
def pointNoTitle : PointStruct :=
  ⟨"id0", [("summary", [17]), ("chunk", [15])],
   [("text_id", PyVal.str "id0"), ("title", PyVal.none),
    ("source", PyVal.str "somewhere"),
    ("authors", PyVal.strList ["A. Author"]),
    ("chunk", PyVal.str "some chunk text"),
    ("summary", PyVal.str "some summary text")]⟩

example :
    (add_data_to_collection strEmbed allCompleted simpleIds 0 [recFull] "arxiv_chunks").raised
      = Option.none := by decide

example :
    (add_data_to_collection failEmbed allCompleted simpleIds 0 [recFull] "arxiv_chunks").upsertCalls
      = [] := by decide

example :
    (add_data_to_collection strEmbed allCompleted simpleIds 0 [recFull] "arxiv_chunks").upsertCalls
      = [⟨"arxiv_chunks", true, [pointFull]⟩] := by decide

example :
    (add_data_to_collection strEmbed allCompleted simpleIds 1 [recFull] "arxiv_chunks").upsertCalls
      = [⟨"arxiv_chunks", true, [pointFull1]⟩] := by decide

example :
    (add_data_to_collection strEmbed allCompleted simpleIds 0 [recNoTitle] "arxiv_chunks").upsertCalls
      = [⟨"arxiv_chunks", true, [pointNoTitle]⟩] := by decide

theorem get_text_embedding_eq (embedFn : EmbedFn) (text : PyVal) (model : String) :
    get_text_embedding embedFn text model = embedFn text model := by
  unfold get_text_embedding
  cases embedFn text model <;> rfl

theorem processRecords_cons_ok (embedFn : EmbedFn) (ids : Nat → String) (n : Nat)
    (item : Record) (rest : List Record) (vs vc : Embedding)
    (h1 : embedFn (dictGet item "summary") defaultModel = Except.ok vs)
    (h2 : embedFn (dictGet item "chunk") defaultModel = Except.ok vc) :
    processRecords embedFn ids n (item :: rest) =
      ((dictGet item "summary", defaultModel) :: (dictGet item "chunk", defaultModel)
          :: (processRecords embedFn ids (n + 1) rest).1,
       match (processRecords embedFn ids (n + 1) rest).2 with
       | Except.ok pts =>
         Except.ok (⟨ids n, [("summary", vs), ("chunk", vc)],
           [("text_id", PyVal.str (ids n)), ("title", dictGet item "title"),
            ("source", dictGet item "source"), ("authors", dictGet item "authors"),
            ("chunk", dictGet item "chunk"), ("summary", dictGet item "summary")]⟩ :: pts)
       | Except.error e => Except.error e) := by
  simp only [processRecords, get_text_embedding_eq, h1, h2]

theorem processRecords_cons_err1 (embedFn : EmbedFn) (ids : Nat → String) (n : Nat)
    (item : Record) (rest : List Record) (e : EmbedError)
    (h1 : embedFn (dictGet item "summary") defaultModel = Except.error e) :
    processRecords embedFn ids n (item :: rest) =
      ([(dictGet item "summary", defaultModel)], Except.error e) := by
  simp only [processRecords, get_text_embedding_eq, h1]

theorem processRecords_cons_err2 (embedFn : EmbedFn) (ids : Nat → String) (n : Nat)
    (item : Record) (rest : List Record) (vs : Embedding) (e : EmbedError)
    (h1 : embedFn (dictGet item "summary") defaultModel = Except.ok vs)
    (h2 : embedFn (dictGet item "chunk") defaultModel = Except.error e) :
    processRecords embedFn ids n (item :: rest) =
      ([(dictGet item "summary", defaultModel), (dictGet item "chunk", defaultModel)],
        Except.error e) := by
  simp only [processRecords, get_text_embedding_eq, h1, h2]

theorem processRecords_ok_spec (embedFn : EmbedFn) (ids : Nat → String) :
    ∀ (data : List Record) (n : Nat) (pts : List PointStruct),
      (processRecords embedFn ids n data).2 = Except.ok pts →
      (processRecords embedFn ids n data).1 = expectedTrace data ∧
      List.Forall₂ (builtFrom embedFn) data pts ∧
      pts.map (fun p => p.id) = expectedIds ids n data.length := by
  intro data
  induction data with
  | nil =>
    intro n pts h
    simp only [processRecords, Except.ok.injEq] at h
    subst h
    exact ⟨rfl, List.Forall₂.nil, rfl⟩
  | cons item rest ih =>
    intro n pts h
    cases h1 : embedFn (dictGet item "summary") defaultModel with
    | error e =>
      rw [processRecords_cons_err1 embedFn ids n item rest e h1] at h
      exact absurd h (by simp)
    | ok vs =>
      cases h2 : embedFn (dictGet item "chunk") defaultModel with
      | error e =>
        rw [processRecords_cons_err2 embedFn ids n item rest vs e h1 h2] at h
        exact absurd h (by simp)
      | ok vc =>
        rw [processRecords_cons_ok embedFn ids n item rest vs vc h1 h2] at h
        rw [processRecords_cons_ok embedFn ids n item rest vs vc h1 h2]
        cases h3 : (processRecords embedFn ids (n + 1) rest).2 with
        | error e => rw [h3] at h; exact absurd h (by simp)
        | ok pts0 =>
          rw [h3] at h
          simp only [Except.ok.injEq] at h
          subst h
          obtain ⟨htr, hall, hids⟩ := ih (n + 1) pts0 h3
          refine ⟨?_, ?_, ?_⟩
          · simp only [expectedTrace, htr]
          · refine List.Forall₂.cons ?_ hall
            exact ⟨vs, vc, h1, h2, rfl, rfl⟩
          · simp only [List.map_cons, List.length_cons, expectedIds, hids]

theorem add_data_err (embedFn : EmbedFn) (statusOf : UpsertCall → UpdateStatus)
    (ids : Nat → String) (n : Nat) (data : List Record) (cname : String) (e : EmbedError)
    (h : (processRecords embedFn ids n data).2 = Except.error e) :
    add_data_to_collection embedFn statusOf ids n data cname =
      ⟨(processRecords embedFn ids n data).1, [], [], some e⟩ := by
  simp only [add_data_to_collection, h]

theorem add_data_ok (embedFn : EmbedFn) (statusOf : UpsertCall → UpdateStatus)
    (ids : Nat → String) (n : Nat) (data : List Record) (cname : String)
    (pts : List PointStruct)
    (h : (processRecords embedFn ids n data).2 = Except.ok pts) :
    add_data_to_collection embedFn statusOf ids n data cname =
      ⟨(processRecords embedFn ids n data).1, [⟨cname, true, pts⟩],
       [if statusOf ⟨cname, true, pts⟩ = UpdateStatus.completed then
           "Data inserted successfully!"
         else "Failed to insert data"],
       Option.none⟩ := by
  simp only [add_data_to_collection, h]

theorem forall₂_mem_right {α β : Type} {R : α → β → Prop}
    {as : List α} {bs : List β} (h : List.Forall₂ R as bs) :
    ∀ b ∈ bs, ∃ a ∈ as, R a b := by
  induction h with
  | nil => intro b hb; cases hb
  | cons hr _ ih =>
    intro b hb
    cases hb with
    | head => exact ⟨_, List.mem_cons_self _ _, hr⟩
    | tail _ hb0 =>
      obtain ⟨a, ha, har⟩ := ih b hb0
      exact ⟨a, List.mem_cons_of_mem _ ha, har⟩

theorem replaceIds_eq (p : PointStruct) (c : List PointStruct) :
    (c.map (fun q => if q.id == p.id then p else q)).map (fun q => q.id)
      = c.map (fun q => q.id) := by
  induction c with
  | nil => rfl
  | cons q rest ih =>
    simp only [List.map_cons, ih, List.cons.injEq, and_true]
    by_cases h : q.id == p.id
    · have hq : q.id = p.id := by simpa using h
      simp [h, hq]
    · simp [h]

theorem hasId_eq_idsAny (c : List PointStruct) (x : String) :
    hasId c x = (c.map (fun q => q.id)).any (fun i => i == x) := by
  unfold hasId
  induction c with
  | nil => rfl
  | cons q rest ih => simp [List.any_cons, ih]

theorem hasId_upsertPoint (c : List PointStruct) (p : PointStruct) (x : String) :
    hasId (upsertPoint c p) x = (hasId c x || (p.id == x)) := by
  unfold upsertPoint
  by_cases hp : c.any (fun q => q.id == p.id)
  · simp only [hp, if_true]
    rw [hasId_eq_idsAny, replaceIds_eq, ← hasId_eq_idsAny]
    by_cases hx : p.id == x
    · have hx0 : p.id = x := by simpa using hx
      have : hasId c x = true := by
        unfold hasId at hp ⊢
        rw [← hx0]
        exact hp
      simp [this]
    · simp [hx]
  · simp only [hp, if_false]
    unfold hasId
    simp [List.any_append]

theorem upsertPoint_length_present (c : List PointStruct) (p : PointStruct)
    (h : hasId c p.id = true) : (upsertPoint c p).length = c.length := by
  unfold hasId at h
  unfold upsertPoint
  simp [h]

theorem upsertPoint_length_absent (c : List PointStruct) (p : PointStruct)
    (h : hasId c p.id = false) : (upsertPoint c p).length = c.length + 1 := by
  unfold hasId at h
  unfold upsertPoint
  simp [h]

theorem hasId_upsertBatch (ps : List PointStruct) :
    ∀ (c : List PointStruct) (x : String),
      hasId (upsertBatch c ps) x = (hasId c x || ps.any (fun p => p.id == x)) := by
  induction ps with
  | nil => intro c x; simp [upsertBatch]
  | cons p rest ih =>
    intro c x
    unfold upsertBatch at ih ⊢
    simp only [List.foldl_cons]
    rw [ih (upsertPoint c p) x, hasId_upsertPoint]
    simp [List.any_cons, Bool.or_assoc]

theorem upsertBatch_length_present (ps : List PointStruct) :
    ∀ (c : List PointStruct), (∀ p ∈ ps, hasId c p.id = true) →
      (upsertBatch c ps).length = c.length := by
  induction ps with
  | nil => intro c _; rfl
  | cons p rest ih =>
    intro c h
    unfold upsertBatch at ih ⊢
    simp only [List.foldl_cons]
    have hstep : ∀ q ∈ rest, hasId (upsertPoint c p) q.id = true := by
      intro q hq
      rw [hasId_upsertPoint]
      simp [h q (List.mem_cons_of_mem _ hq)]
    rw [ih (upsertPoint c p) hstep]
    exact upsertPoint_length_present c p (h p (List.mem_cons_self _ _))

theorem upsertBatch_length_fresh (ps : List PointStruct) :
    ∀ (c : List PointStruct), (ps.map (fun p => p.id)).Nodup →
      (∀ p ∈ ps, hasId c p.id = false) →
      (upsertBatch c ps).length = c.length + ps.length := by
  induction ps with
  | nil => intro c _ _; simp [upsertBatch]
  | cons p rest ih =>
    intro c hnd h
    unfold upsertBatch at ih ⊢
    simp only [List.foldl_cons]
    rw [List.map_cons] at hnd
    have hnd0 := List.nodup_cons.mp hnd
    have hstep : ∀ q ∈ rest, hasId (upsertPoint c p) q.id = false := by
      intro q hq
      rw [hasId_upsertPoint]
      have h1 : hasId c q.id = false := h q (List.mem_cons_of_mem _ hq)
      have h2 : p.id ≠ q.id := by
        intro hcontra
        exact hnd0.1 (hcontra ▸ List.mem_map_of_mem (fun r => r.id) hq)
      have h3 : (p.id == q.id) = false := by
        simpa using h2
      simp [h1, h3]
    rw [ih (upsertPoint c p) hnd0.2 hstep,
        upsertPoint_length_absent c p (h p (List.mem_cons_self _ _))]
    simp only [List.length_cons]
    omega

theorem mem_upsertPoint_id_eq (c : List PointStruct) (p : PointStruct) :
    ∀ q ∈ upsertPoint c p, (q.id == p.id) = true → q = p := by
  unfold upsertPoint
  by_cases hp : c.any (fun r => r.id == p.id)
  · simp only [hp, if_true]
    intro q hq hid
    obtain ⟨r, hr, hfr⟩ := List.mem_map.mp hq
    by_cases h : r.id == p.id
    · rw [← hfr]; simp [h]
    · rw [← hfr] at hid
      simp only [h, if_false] at hid
      exact absurd hid (by simpa using h)
  · simp only [hp, if_false]
    intro q hq hid
    rcases List.mem_append.mp hq with hmem | hmem
    · exact absurd (List.any_eq_true.mpr ⟨q, hmem, hid⟩) hp
    · simpa using hmem

theorem upsertPoint_eq_of_all (d : List PointStruct) (p : PointStruct)
    (h1 : hasId d p.id = true) (h2 : ∀ q ∈ d, (q.id == p.id) = true → q = p) :
    upsertPoint d p = d := by
  unfold hasId at h1
  unfold upsertPoint
  simp only [h1, if_true]
  have : ∀ q ∈ d, (if q.id == p.id then p else q) = q := by
    intro q hq
    by_cases h : q.id == p.id
    · simp only [h, if_true]
      exact (h2 q hq h).symm
    · simp [h]
  calc d.map (fun q => if q.id == p.id then p else q) = d.map id := List.map_congr_left this
    _ = d := List.map_id d

theorem upsertPoint_idem (c : List PointStruct) (p : PointStruct) :
    upsertPoint (upsertPoint c p) p = upsertPoint c p := by
  apply upsertPoint_eq_of_all
  · rw [hasId_upsertPoint]; simp
  · exact mem_upsertPoint_id_eq c p

theorem upsertBatch_twice_length (c : List PointStruct) (ps : List PointStruct) :
    points_count (upsertBatch (upsertBatch c ps) ps) = points_count (upsertBatch c ps) := by
  apply upsertBatch_length_present
  intro p hp
  rw [hasId_upsertBatch]
  have : ps.any (fun q => q.id == p.id) = true := List.any_eq_true.mpr ⟨p, hp, by simp⟩
  simp [this]

theorem find_replaced (p : PointStruct) :
    ∀ (c : List PointStruct), c.any (fun q => q.id == p.id) = true →
      List.find? (fun r => r.id == p.id)
        (c.map (fun q => if q.id == p.id then p else q)) = some p := by
  intro c
  induction c with
  | nil => intro h; simp at h
  | cons q rest ih =>
    intro h
    simp only [List.map_cons]
    cases hq : q.id == p.id with
    | true => simp [hq, List.find?_cons]
    | false =>
      have hrest : rest.any (fun r => r.id == p.id) = true := by
        simpa [List.any_cons, hq] using h
      simp only [List.find?_cons, hq, Bool.false_eq_true, if_false]
      exact ih hrest

theorem find_appended (p : PointStruct) :
    ∀ (c : List PointStruct), c.any (fun q => q.id == p.id) = false →
      List.find? (fun r => r.id == p.id) (c ++ [p]) = some p := by
  intro c
  induction c with
  | nil => simp [List.find?_cons]
  | cons q rest ih =>
    intro h
    simp only [List.any_cons, Bool.or_eq_false_iff] at h
    rw [List.cons_append, List.find?_cons]
    simp only [h.1]
    exact ih h.2

theorem getPoint_upsertPoint (c : List PointStruct) (p : PointStruct) :
    getPoint (upsertPoint c p) p.id = some p := by
  unfold getPoint upsertPoint
  cases hp : c.any (fun q => q.id == p.id) with
  | true => simpa using find_replaced p c hp
  | false => simpa using find_appended p c hp


theorem find?_some_pred {α : Type} (p : α → Bool) :
    ∀ (l : List α) (a : α), l.find? p = some a → p a = true ∧ a ∈ l := by
  intro l
  induction l with
  | nil => intro a h; cases h
  | cons x rest ih =>
    intro a h
    rw [List.find?_cons] at h
    cases hx : p x with
    | true =>
      simp only [hx] at h
      cases h
      exact ⟨hx, List.mem_cons_self _ _⟩
    | false =>
      simp only [hx] at h
      obtain ⟨hp, hm⟩ := ih a h
      exact ⟨hp, List.mem_cons_of_mem _ hm⟩

theorem dictGet_of_not_hasKey (item : Record) (key : String)
    (h : dictHasKey item key = false) : dictGet item key = PyVal.none := by
  unfold dictHasKey at h
  unfold dictGet
  cases hf : item.find? (fun kv => kv.1 == key) with
  | none => rfl
  | some kv =>
    obtain ⟨hpred, hmem⟩ := find?_some_pred (fun kv => kv.1 == key) item kv hf
    have hany : item.any (fun kv => kv.1 == key) = true :=
      List.any_eq_true.mpr ⟨kv, hmem, hpred⟩
    rw [h] at hany
    exact Bool.noConfusion hany

/-- Claim C1: if embedding any selected field of a record fails (also when the
field is absent, so that `None` is passed to the provider), no point for that
record reaches the Writer: every point of every batch passed to upsert carries
an embedding for both declared vector slots `summary` and `chunk`, and a run
that raised an embedding error issues no upsert call at all. -/
theorem c1_no_incomplete_point_reaches_upsert (embedFn : EmbedFn)
    (statusOf : UpsertCall → UpdateStatus) (ids : Nat → String) (n : Nat)
    (data : List Record) (cname : String) :
    (∀ call ∈ (add_data_to_collection embedFn statusOf ids n data cname).upsertCalls,
       ∀ p ∈ call.points, ∃ vs vc, p.vector = [("summary", vs), ("chunk", vc)]) ∧
    ((add_data_to_collection embedFn statusOf ids n data cname).raised.isSome →
       (add_data_to_collection embedFn statusOf ids n data cname).upsertCalls = []) := by
  cases hres : (processRecords embedFn ids n data).2 with
  | error e =>
    rw [add_data_err embedFn statusOf ids n data cname e hres]
    exact ⟨fun call hcall => absurd hcall (by simp), fun _ => rfl⟩
  | ok pts =>
    rw [add_data_ok embedFn statusOf ids n data cname pts hres]
    constructor
    · intro call hcall p hp
      have hc : call = ⟨cname, true, pts⟩ := by simpa using hcall
      subst hc
      obtain ⟨-, hall, -⟩ := processRecords_ok_spec embedFn ids data n pts hres
      obtain ⟨item, hitem, vs, vc, h1, h2, hvec, hpl⟩ := forall₂_mem_right hall p hp
      exact ⟨vs, vc, hvec⟩
    · intro hcontra
      exact absurd hcontra (by simp)

theorem c1_witness :
    (∃ vs vc, pointFull.vector = [("summary", vs), ("chunk", vc)]) ∧
    (add_data_to_collection failEmbed allCompleted simpleIds 0 [recFull] "arxiv_chunks").upsertCalls
      = [] := by
  constructor
  · exact (c1_no_incomplete_point_reaches_upsert strEmbed allCompleted simpleIds 0 [recFull]
      "arxiv_chunks").1 ⟨"arxiv_chunks", true, [pointFull]⟩ (by decide) pointFull (by decide)
  · exact (c1_no_incomplete_point_reaches_upsert failEmbed allCompleted simpleIds 0 [recFull]
      "arxiv_chunks").2 (by decide)

/-- Claim C2: when the storage service reports a non-success status for the
batch upsert, the pipeline reports failure; the success message is printed
exactly when the returned status is the completed status, so a non-throwing
return is never treated as success. -/
theorem c2_status_checked_explicitly (embedFn : EmbedFn)
    (statusOf : UpsertCall → UpdateStatus) (ids : Nat → String) (n : Nat)
    (data : List Record) (cname : String) (pts : List PointStruct)
    (h : (processRecords embedFn ids n data).2 = Except.ok pts) :
    ((add_data_to_collection embedFn statusOf ids n data cname).printed
        = ["Data inserted successfully!"] ↔
      statusOf ⟨cname, true, pts⟩ = UpdateStatus.completed) ∧
    (statusOf ⟨cname, true, pts⟩ ≠ UpdateStatus.completed →
      (add_data_to_collection embedFn statusOf ids n data cname).printed
        = ["Failed to insert data"]) := by
  rw [add_data_ok embedFn statusOf ids n data cname pts h]
  by_cases hs : statusOf ⟨cname, true, pts⟩ = UpdateStatus.completed
  · simp [hs]
  · simp [hs]

theorem c2_witness :
    (add_data_to_collection strEmbed allAcknowledged simpleIds 0 [recFull]
      "arxiv_chunks").printed = ["Failed to insert data"] :=
  (c2_status_checked_explicitly strEmbed allAcknowledged simpleIds 0 [recFull]
    "arxiv_chunks" [pointFull] (by rfl)).2 (by decide)

/-- Claim C3 counterexample: on a record lacking the `title` key the run
completes without signalling any error: no MissingField (or any other) error
is raised, and the built payload silently carries the `None` value under
`title`. -/
theorem c3_counterexample :
    (add_data_to_collection strEmbed allCompleted simpleIds 0 [recNoTitle]
        "arxiv_chunks").raised = Option.none ∧
    (add_data_to_collection strEmbed allCompleted simpleIds 0 [recNoTitle]
        "arxiv_chunks").upsertCalls = [⟨"arxiv_chunks", true, [pointNoTitle]⟩] ∧
    ("title", PyVal.none) ∈ pointNoTitle.payload := by decide

/-- Claim C3 amended: the code performs no required-field validation and
signals no MissingField error. A record lacking a metadata field (`title`)
still yields a point, whose payload carries `None` under that key; a record
lacking a text field (`summary`) leads to `None` being passed to the Embedder
as the first embedding call. -/
theorem c3_none_propagates_silently (embedFn : EmbedFn)
    (statusOf : UpsertCall → UpdateStatus) (ids : Nat → String) (n : Nat)
    (item : Record) (cname : String) :
    (dictHasKey item "title" = false →
       ∀ call ∈ (add_data_to_collection embedFn statusOf ids n [item] cname).upsertCalls,
         ∀ p ∈ call.points, ("title", PyVal.none) ∈ p.payload) ∧
    (dictHasKey item "summary" = false →
       (add_data_to_collection embedFn statusOf ids n [item] cname).embedTrace.head?
         = some (PyVal.none, defaultModel)) := by
  constructor
  · intro htitle call hcall p hp
    cases hres : (processRecords embedFn ids n [item]).2 with
    | error e =>
      rw [add_data_err embedFn statusOf ids n [item] cname e hres] at hcall
      exact absurd hcall (by simp)
    | ok pts =>
      rw [add_data_ok embedFn statusOf ids n [item] cname pts hres] at hcall
      have hc : call = ⟨cname, true, pts⟩ := by simpa using hcall
      subst hc
      obtain ⟨-, hall, -⟩ := processRecords_ok_spec embedFn ids [item] n pts hres
      obtain ⟨it, hit, vs, vc, h1, h2, hvec, hpl⟩ := forall₂_mem_right hall p hp
      have hit0 : it = item := by simpa using hit
      rw [hpl, hit0, dictGet_of_not_hasKey item "title" htitle]
      simp
  · intro hsummary
    have hget : dictGet item "summary" = PyVal.none :=
      dictGet_of_not_hasKey item "summary" hsummary
    cases h1 : embedFn (dictGet item "summary") defaultModel with
    | error e =>
      have hpr := processRecords_cons_err1 embedFn ids n item [] e h1
      have hres : (processRecords embedFn ids n [item]).2 = Except.error e := by
        rw [hpr]
      rw [add_data_err embedFn statusOf ids n [item] cname e hres, hpr, ← hget]
      rfl
    | ok vs =>
      cases h2 : embedFn (dictGet item "chunk") defaultModel with
      | error e =>
        have hpr := processRecords_cons_err2 embedFn ids n item [] vs e h1 h2
        have hres : (processRecords embedFn ids n [item]).2 = Except.error e := by
          rw [hpr]
        rw [add_data_err embedFn statusOf ids n [item] cname e hres, hpr, ← hget]
        rfl
      | ok vc =>
        have hpr := processRecords_cons_ok embedFn ids n item [] vs vc h1 h2
        have hres : (processRecords embedFn ids n [item]).2
            = Except.ok [⟨ids n, [("summary", vs), ("chunk", vc)],
                [("text_id", PyVal.str (ids n)), ("title", dictGet item "title"),
                 ("source", dictGet item "source"), ("authors", dictGet item "authors"),
                 ("chunk", dictGet item "chunk"), ("summary", dictGet item "summary")]⟩] := by
          rw [hpr]
          rfl
        rw [add_data_ok embedFn statusOf ids n [item] cname _ hres, hpr, ← hget]
        rfl

theorem c3_witness :
    (("title", PyVal.none) ∈ pointNoTitle.payload) ∧
    (add_data_to_collection strEmbed allCompleted simpleIds 0 [recNoSummary]
        "arxiv_chunks").embedTrace.head? = some (PyVal.none, defaultModel) := by
  constructor
  · exact (c3_none_propagates_silently strEmbed allCompleted simpleIds 0 recNoTitle
      "arxiv_chunks").1 (by decide) ⟨"arxiv_chunks", true, [pointNoTitle]⟩ (by decide)
      pointNoTitle (by decide)
  · exact (c3_none_propagates_silently strEmbed allCompleted simpleIds 0 recNoSummary
      "arxiv_chunks").2 (by decide)

/-- Claim C4 counterexample: the sampled arxiv record carries a `doi` field,
the run succeeds, and yet the built payload has no `doi` key — metadata fields
beyond the six fixed keys are not carried over into the payload. -/
theorem c4_counterexample :
    dictHasKey recFull "doi" = true ∧
    (add_data_to_collection strEmbed allCompleted simpleIds 0 [recFull]
        "arxiv_chunks").upsertCalls = [⟨"arxiv_chunks", true, [pointFull]⟩] ∧
    (pointFull.payload.map (fun kv => kv.1)).contains "doi" = false := by decide

/-- Claim C4 amended: the payload of every built point consists of exactly
the six keys `text_id`, `title`, `source`, `authors`, `chunk`, `summary`;
any other metadata field present on the record (`doi`, `categories`,
`published`, ...) is dropped, not carried over. -/
theorem c4_payload_has_fixed_keys (embedFn : EmbedFn)
    (statusOf : UpsertCall → UpdateStatus) (ids : Nat → String) (n : Nat)
    (data : List Record) (cname : String) :
    ∀ call ∈ (add_data_to_collection embedFn statusOf ids n data cname).upsertCalls,
      ∀ p ∈ call.points,
        p.payload.map (fun kv => kv.1)
          = ["text_id", "title", "source", "authors", "chunk", "summary"] := by
  intro call hcall p hp
  cases hres : (processRecords embedFn ids n data).2 with
  | error e =>
    rw [add_data_err embedFn statusOf ids n data cname e hres] at hcall
    exact absurd hcall (by simp)
  | ok pts =>
    rw [add_data_ok embedFn statusOf ids n data cname pts hres] at hcall
    have hc : call = ⟨cname, true, pts⟩ := by simpa using hcall
    subst hc
    obtain ⟨-, hall, -⟩ := processRecords_ok_spec embedFn ids data n pts hres
    obtain ⟨it, hit, vs, vc, h1, h2, hvec, hpl⟩ := forall₂_mem_right hall p hp
    rw [hpl]
    rfl

theorem c4_witness :
    pointFull.payload.map (fun kv => kv.1)
      = ["text_id", "title", "source", "authors", "chunk", "summary"] :=
  c4_payload_has_fixed_keys strEmbed allCompleted simpleIds 0 [recFull] "arxiv_chunks"
    ⟨"arxiv_chunks", true, [pointFull]⟩ (by decide) pointFull (by decide)

theorem expectedIds_length (ids : Nat → String) :
    ∀ (len n : Nat), (expectedIds ids n len).length = len := by
  intro len
  induction len with
  | zero => intro n; rfl
  | succ l ih => intro n; simp [expectedIds, ih]

theorem expectedIds_add (ids : Nat → String) :
    ∀ (a n b : Nat),
      expectedIds ids n (a + b) = expectedIds ids n a ++ expectedIds ids (n + a) b := by
  intro a
  induction a with
  | zero =>
    intro n b
    simp [expectedIds]
  | succ a ih =>
    intro n b
    have h1 : a + 1 + b = (a + b) + 1 := by omega
    rw [h1]
    show ids n :: expectedIds ids (n + 1) (a + b)
      = expectedIds ids n (a + 1) ++ expectedIds ids (n + (a + 1)) b
    rw [ih (n + 1) b]
    have h2 : n + 1 + a = n + (a + 1) := by omega
    rw [h2]
    rfl

theorem any_id_eq_mem (l : List PointStruct) (x : String) :
    l.any (fun p => p.id == x) = true ↔ x ∈ l.map (fun p => p.id) := by
  rw [List.any_eq_true]
  constructor
  · rintro ⟨p, hp, he⟩
    have hx : p.id = x := by simpa using he
    exact hx ▸ List.mem_map_of_mem (fun p => p.id) hp
  · intro hx
    obtain ⟨p, hp, he⟩ := List.mem_map.mp hx
    exact ⟨p, hp, by simpa using he⟩

/-- Claim C5 counterexample: re-running ingestion of the same single record
assigns a different identifier (`id1` instead of `id0`, as `uuid.uuid4()`
draws fresh randomness on each call), and the collection holds 2 points after
re-ingestion instead of a constant 1: the identifier is not stable and
re-ingestion duplicates rather than overwrites. -/
theorem c5_counterexample :
    (add_data_to_collection strEmbed allCompleted simpleIds 0 [recFull]
        "arxiv_chunks").upsertCalls.map (fun call => call.points.map (fun p => p.id))
      = [["id0"]] ∧
    (add_data_to_collection strEmbed allCompleted simpleIds 1 [recFull]
        "arxiv_chunks").upsertCalls.map (fun call => call.points.map (fun p => p.id))
      = [["id1"]] ∧
    points_count (applyCalls (applyCalls []
        (add_data_to_collection strEmbed allCompleted simpleIds 0 [recFull]
          "arxiv_chunks").upsertCalls)
        (add_data_to_collection strEmbed allCompleted simpleIds 1 [recFull]
          "arxiv_chunks").upsertCalls) = 2 := by decide

/-- Claim C5 amended: the Point Builder does not derive a stable identifier:
it draws a fresh identifier per record per call from the uuid supply.
Re-running ingestion over the same records with the advanced supply assigns
disjoint fresh identifiers, so the second run adds `data.length` new points
instead of overwriting: the point count grows by `data.length` again instead
of staying constant. -/
theorem c5_fresh_ids_duplicate_points (embedFn : EmbedFn)
    (statusOf : UpsertCall → UpdateStatus) (ids : Nat → String) (n : Nat)
    (data : List Record) (cname : String) (coll : List PointStruct)
    (pts0 pts1 : List PointStruct)
    (h0 : (processRecords embedFn ids n data).2 = Except.ok pts0)
    (h1 : (processRecords embedFn ids (n + data.length) data).2 = Except.ok pts1)
    (hnd : (expectedIds ids n (data.length + data.length)).Nodup)
    (hcoll : ∀ x ∈ expectedIds ids n (data.length + data.length), hasId coll x = false) :
    points_count (applyCalls (applyCalls coll
        (add_data_to_collection embedFn statusOf ids n data cname).upsertCalls)
        (add_data_to_collection embedFn statusOf ids (n + data.length) data
          cname).upsertCalls)
      = points_count coll + data.length + data.length := by
  obtain ⟨-, -, hids0⟩ := processRecords_ok_spec embedFn ids data n pts0 h0
  obtain ⟨-, -, hids1⟩ := processRecords_ok_spec embedFn ids data (n + data.length) pts1 h1
  simp only [add_data_ok embedFn statusOf ids n data cname pts0 h0,
    add_data_ok embedFn statusOf ids (n + data.length) data cname pts1 h1]
  show points_count (upsertBatch (upsertBatch coll pts0) pts1)
    = points_count coll + data.length + data.length
  rw [expectedIds_add ids data.length n data.length] at hnd hcoll
  obtain ⟨hndA, hndB, hdisj⟩ := List.nodup_append.mp hnd
  have hlen0 : pts0.length = data.length := by
    have := List.length_map pts0 (fun p => p.id)
    rw [hids0, expectedIds_length] at this
    exact this.symm
  have hlen1 : pts1.length = data.length := by
    have := List.length_map pts1 (fun p => p.id)
    rw [hids1, expectedIds_length] at this
    exact this.symm
  have hfresh0 : ∀ p ∈ pts0, hasId coll p.id = false := by
    intro p hp
    have hmem : p.id ∈ expectedIds ids n data.length := by
      rw [← hids0]
      exact List.mem_map_of_mem (fun p => p.id) hp
    exact hcoll p.id (List.mem_append_left _ hmem)
  have hstep0 : (upsertBatch coll pts0).length = coll.length + pts0.length := by
    apply upsertBatch_length_fresh pts0 coll _ hfresh0
    rw [hids0]
    exact hndA
  have hfresh1 : ∀ p ∈ pts1, hasId (upsertBatch coll pts0) p.id = false := by
    intro p hp
    have hmemB : p.id ∈ expectedIds ids (n + data.length) data.length := by
      rw [← hids1]
      exact List.mem_map_of_mem (fun p => p.id) hp
    rw [hasId_upsertBatch]
    have hc : hasId coll p.id = false := hcoll p.id (List.mem_append_right _ hmemB)
    have ha : pts0.any (fun q => q.id == p.id) = false := by
      rw [Bool.eq_false_iff]
      intro hcontra
      have : p.id ∈ pts0.map (fun q => q.id) := (any_id_eq_mem pts0 p.id).mp hcontra
      rw [hids0] at this
      exact hdisj this hmemB
    rw [hc, ha]
    rfl
  have hstep1 : (upsertBatch (upsertBatch coll pts0) pts1).length
      = (upsertBatch coll pts0).length + pts1.length := by
    apply upsertBatch_length_fresh pts1 (upsertBatch coll pts0) _ hfresh1
    rw [hids1]
    exact hndB
  unfold points_count
  rw [hstep1, hstep0, hlen0, hlen1]

theorem c5_witness :
    points_count (applyCalls (applyCalls []
        (add_data_to_collection strEmbed allCompleted simpleIds 0 [recFull]
          "arxiv_chunks").upsertCalls)
        (add_data_to_collection strEmbed allCompleted simpleIds (0 + [recFull].length)
          [recFull] "arxiv_chunks").upsertCalls) = 2 := by
  have h := c5_fresh_ids_duplicate_points strEmbed allCompleted simpleIds 0 [recFull]
    "arxiv_chunks" [] [pointFull] [pointFull1] (by rfl) (by rfl) (by decide) (by decide)
  simpa using h

/-- Claim C6: over the spec-modelled storage service, upsert is idempotent
per identifier: upserting the same point twice equals upserting it once,
re-submitting a whole batch leaves the point count unchanged after the second
call, and a point whose identifier already exists is fully replaced, not
merged or duplicated: looking the identifier up afterwards returns exactly
the submitted point, with its vectors and payload. -/
theorem c6_upsert_idempotent_and_replaces (c : List PointStruct)
    (p : PointStruct) (ps : List PointStruct) :
    upsertPoint (upsertPoint c p) p = upsertPoint c p ∧
    points_count (upsertBatch (upsertBatch c ps) ps) = points_count (upsertBatch c ps) ∧
    getPoint (upsertPoint c p) p.id = some p :=
  ⟨upsertPoint_idem c p, upsertBatch_twice_length c ps, getPoint_upsertPoint c p⟩

/-- Claim C7: `get_text_embedding` returns the vector of the provider
unmodified, so any provider satisfying length-invariance yields vectors of
the declared model dimensionality through it; the spec-modelled provider is
length-invariant, the dimensionality of the large text model is 3072, and for
every non-empty input string the call returns a vector of length 3072,
independent of the length (token count) of the input. -/
theorem c7_embed_length_invariance :
    (∀ embedFn, LenInvariant embedFn → ∀ t m v,
        get_text_embedding embedFn t m = Except.ok v → v.length = modelDim m) ∧
    LenInvariant specProvider ∧
    modelDim defaultModel = 3072 ∧
    (∀ s : String, s ≠ "" →
        get_text_embedding specProvider (PyVal.str s) defaultModel
          = Except.ok (List.replicate 3072 0)) := by
  refine ⟨?_, ?_, ?_, ?_⟩
  · intro f hf t m v h
    rw [get_text_embedding_eq] at h
    exact hf t m v h
  · intro t m v h
    cases t with
    | none => exact absurd h (by simp [specProvider])
    | strList xs => exact absurd h (by simp [specProvider])
    | str s =>
      simp only [specProvider] at h
      by_cases hs : s = ""
      · rw [if_pos hs] at h
        exact absurd h (by simp)
      · rw [if_neg hs] at h
        injection h with h
        rw [← h, List.length_replicate]
  · rfl
  · intro s hs
    rw [get_text_embedding_eq]
    simp only [specProvider]
    rw [if_neg hs]
    rfl

theorem c7_witness :
    get_text_embedding specProvider (PyVal.str "hello") defaultModel
      = Except.ok (List.replicate 3072 0) ∧
    (List.replicate (3072 : Nat) (0 : Int)).length = modelDim defaultModel := by
  refine ⟨?_, ?_⟩
  · exact c7_embed_length_invariance.2.2.2 "hello" (by decide)
  · exact c7_embed_length_invariance.1 specProvider c7_embed_length_invariance.2.1
      (PyVal.str "hello") defaultModel (List.replicate 3072 0)
      (c7_embed_length_invariance.2.2.2 "hello" (by decide))

/-- Claim C8: every point handed to upsert is built from some input record:
its payload is exactly the six-key dictionary `text_id`, `title`, `source`,
`authors`, `chunk`, `summary`, where `chunk` and `summary` are the raw record
texts that were embedded, `title`, `source` and `authors` are copied from the
record, and `text_id` is the string of the identifier of the point itself. -/
theorem c8_payload_contents (embedFn : EmbedFn)
    (statusOf : UpsertCall → UpdateStatus) (ids : Nat → String) (n : Nat)
    (data : List Record) (cname : String) :
    ∀ call ∈ (add_data_to_collection embedFn statusOf ids n data cname).upsertCalls,
      ∀ p ∈ call.points, ∃ item ∈ data, builtFrom embedFn item p := by
  intro call hcall p hp
  cases hres : (processRecords embedFn ids n data).2 with
  | error e =>
    rw [add_data_err embedFn statusOf ids n data cname e hres] at hcall
    exact absurd hcall (by simp)
  | ok pts =>
    rw [add_data_ok embedFn statusOf ids n data cname pts hres] at hcall
    have hc : call = ⟨cname, true, pts⟩ := by simpa using hcall
    subst hc
    obtain ⟨-, hall, -⟩ := processRecords_ok_spec embedFn ids data n pts hres
    exact forall₂_mem_right hall p hp

theorem c8_witness : builtFrom strEmbed recFull pointFull := by
  obtain ⟨item, hitem, hb⟩ := c8_payload_contents strEmbed allCompleted simpleIds 0
    [recFull] "arxiv_chunks" ⟨"arxiv_chunks", true, [pointFull]⟩ (by decide)
    pointFull (by decide)
  have h0 : item = recFull := by simpa using hitem
  exact h0 ▸ hb

/-- Claim C9: on a run that raises no error, the Embedder is invoked exactly
once per declared vector slot per record — for each record in order, once on
its summary text and once on its chunk text, both under the default model —
and each resulting embedding is placed in the vector dictionary of the point
under the name of that slot (`summary` first, then `chunk`). -/
theorem c9_one_embed_call_per_slot (embedFn : EmbedFn)
    (statusOf : UpsertCall → UpdateStatus) (ids : Nat → String) (n : Nat)
    (data : List Record) (cname : String)
    (h : (add_data_to_collection embedFn statusOf ids n data cname).raised
      = Option.none) :
    (add_data_to_collection embedFn statusOf ids n data cname).embedTrace
      = expectedTrace data ∧
    ∀ call ∈ (add_data_to_collection embedFn statusOf ids n data cname).upsertCalls,
      List.Forall₂ (builtFrom embedFn) data call.points := by
  cases hres : (processRecords embedFn ids n data).2 with
  | error e =>
    rw [add_data_err embedFn statusOf ids n data cname e hres] at h
    exact absurd h (by simp)
  | ok pts =>
    obtain ⟨htr, hall, -⟩ := processRecords_ok_spec embedFn ids data n pts hres
    rw [add_data_ok embedFn statusOf ids n data cname pts hres]
    refine ⟨htr, ?_⟩
    intro call hcall
    have hc : call = ⟨cname, true, pts⟩ := by simpa using hcall
    subst hc
    exact hall

theorem c9_witness :
    (add_data_to_collection strEmbed allCompleted simpleIds 0 [recFull]
        "arxiv_chunks").embedTrace = expectedTrace [recFull] :=
  (c9_one_embed_call_per_slot strEmbed allCompleted simpleIds 0 [recFull]
    "arxiv_chunks" (by decide)).1

/-- Claim C10 counterexample: on a one-record input whose embedding fails, the
run issues no upsert call at all — not exactly one — so the unconditional
claim fails. -/
theorem c10_counterexample :
    (add_data_to_collection failEmbed allCompleted simpleIds 0 [recFull]
        "arxiv_chunks").upsertCalls.length = 0 ∧
    ¬(add_data_to_collection failEmbed allCompleted simpleIds 0 [recFull]
        "arxiv_chunks").upsertCalls.length = 1 := by decide

/-- Claim C10 amended: when no embedding error is raised — in particular,
always, for the empty input list — `add_data_to_collection` issues exactly one
upsert call, on the given collection with `wait` set, whose batch holds
exactly one point per input record in input order; when an embedding error is
raised, no upsert call is issued at all. -/
theorem c10_single_upsert_on_success (embedFn : EmbedFn)
    (statusOf : UpsertCall → UpdateStatus) (ids : Nat → String) (n : Nat)
    (data : List Record) (cname : String) :
    ((add_data_to_collection embedFn statusOf ids n data cname).raised = Option.none →
       ∃ pts, (add_data_to_collection embedFn statusOf ids n data cname).upsertCalls
           = [⟨cname, true, pts⟩] ∧
         List.Forall₂ (builtFrom embedFn) data pts) ∧
    (∀ e, (add_data_to_collection embedFn statusOf ids n data cname).raised = some e →
       (add_data_to_collection embedFn statusOf ids n data cname).upsertCalls = []) ∧
    (add_data_to_collection embedFn statusOf ids n [] cname).upsertCalls
      = [⟨cname, true, []⟩] := by
  refine ⟨?_, ?_, rfl⟩
  · intro h
    cases hres : (processRecords embedFn ids n data).2 with
    | error e =>
      rw [add_data_err embedFn statusOf ids n data cname e hres] at h
      exact absurd h (by simp)
    | ok pts =>
      obtain ⟨-, hall, -⟩ := processRecords_ok_spec embedFn ids data n pts hres
      rw [add_data_ok embedFn statusOf ids n data cname pts hres]
      exact ⟨pts, rfl, hall⟩
  · intro e he
    cases hres : (processRecords embedFn ids n data).2 with
    | error e0 =>
      rw [add_data_err embedFn statusOf ids n data cname e0 hres]
    | ok pts =>
      rw [add_data_ok embedFn statusOf ids n data cname pts hres] at he
      exact absurd he (by simp)

theorem c10_witness :
    (add_data_to_collection strEmbed allCompleted simpleIds 0 ([] : List Record)
        "arxiv_chunks").upsertCalls = [⟨"arxiv_chunks", true, []⟩] ∧
    (add_data_to_collection failEmbed allCompleted simpleIds 0 [recFull]
        "arxiv_chunks").upsertCalls = [] := by
  constructor
  · exact (c10_single_upsert_on_success strEmbed allCompleted simpleIds 0 []
      "arxiv_chunks").2.2
  · exact (c10_single_upsert_on_success failEmbed allCompleted simpleIds 0 [recFull]
      "arxiv_chunks").2.1 (EmbedError.openAIError "provider down") (by decide)
